import Mathlib

/-!
Verification of the component-generator CLI (`src/index.js`).

The development shallow-embeds the program:

* JavaScript string replacement (`String.prototype.replace`) is modelled on
  `List Char`, including the ECMAScript `GetSubstitution` treatment of `$`
  escape sequences (`$$`, `$&`, the backquote and quote forms) in the
  replacement string.  `file.replace(placeholder, componentName)` (a string
  pattern) replaces the leftmost occurrence only;
  `templateContent.replace(new RegExp(placeholder, 'g'), componentName)`
  replaces every occurrence of the compiled pattern.  The model treats the
  compiled regex as matching literal occurrences of the placeholder, which is
  exact whenever the placeholder contains no regex syntax character; theorems
  quantifying over placeholders carry a `regexSafe` hypothesis for this
  reason.  An empty pattern matches at every position, as in JavaScript.
* The filesystem is a record of a config file (with JSON parsing abstracted
  to parsed-or-invalid-or-absent), a set of directories and an association
  list of files, with paths normalised to segment lists relative to the
  program's `__dirname` (`..` segments are not resolved; no claim uses them).
* `process.exit(1)` after `console.error` is `RunResult.exitFailure`; an
  unhandled exception from `fs` calls is `RunResult.crash`; the final
  `console.log` is `RunResult.success`.
-/

/-- Character constants, written by code point so that the source file stays
free of delimiter characters inside literals. -/
def dollarChar : Char := Char.ofNat 36

/-- Ampersand, code point 38. -/
def ampChar : Char := Char.ofNat 38

/-- Backquote, code point 96. -/
def backquoteChar : Char := Char.ofNat 96

/-- Single quote, code point 39. -/
def quoteChar : Char := Char.ofNat 39

/-- Forward slash, code point 47. -/
def slashChar : Char := Char.ofNat 47

/-- Full stop, code point 46. -/
def dotChar : Char := Char.ofNat 46

/-- ECMAScript `GetSubstitution` for a pattern with no capture groups: expand
the replacement text `repl` for a match of the string `m` at position `pos`
of the subject `orig`.  `$$` yields a dollar, `$&` the matched text, a
dollar-backquote the part of `orig` before the match, a dollar-quote the part
after the match; any other character (including a dollar not followed by one
of these) is copied verbatim. -/
def getSubstitution (orig : List Char) (pos : Nat) (m : List Char) : List Char → List Char
  | [] => []
  | c :: rest =>
    if c = dollarChar then
      match rest with
      | [] => [c]
      | d :: rest2 =>
        if d = dollarChar then dollarChar :: getSubstitution orig pos m rest2
        else if d = ampChar then m ++ getSubstitution orig pos m rest2
        else if d = backquoteChar then List.take pos orig ++ getSubstitution orig pos m rest2
        else if d = quoteChar then List.drop (pos + m.length) orig ++ getSubstitution orig pos m rest2
        else c :: d :: getSubstitution orig pos m rest2
    else c :: getSubstitution orig pos m rest

/-- Scan of a global literal replace: walk the suffix `suf` of the subject
(the current position is `pos`), replacing every leftmost, non-overlapping
occurrence of the pattern `p` by `rep pos`.  An empty pattern matches at
every position, including at the end, exactly as a JavaScript global regex
replace with an empty pattern.  `fuel` dominates the number of scan steps;
`suf.length + 1` always suffices. -/
def replaceScan (p : List Char) (rep : Nat → List Char) : Nat → Nat → List Char → List Char
  | 0, _, suf => suf
  | fuel + 1, pos, suf =>
    if p.isPrefixOf suf then
      if p.isEmpty then
        match suf with
        | [] => rep pos
        | c :: rest => rep pos ++ c :: replaceScan p rep fuel (pos + 1) rest
      else rep pos ++ replaceScan p rep fuel (pos + p.length) (List.drop p.length suf)
    else
      match suf with
      | [] => []
      | c :: rest => c :: replaceScan p rep fuel (pos + 1) rest

/-- Scan of a single (leftmost-occurrence) literal replace, as performed by
JavaScript `String.prototype.replace` with a string pattern. -/
def replaceFirstScan (p : List Char) (rep : Nat → List Char) : Nat → List Char → List Char
  | pos, [] => if p.isPrefixOf [] then rep pos ++ List.drop p.length [] else []
  | pos, c :: rest =>
    if p.isPrefixOf (c :: rest) then rep pos ++ List.drop p.length (c :: rest)
    else c :: replaceFirstScan p rep (pos + 1) rest

/-- JavaScript `s.replace(new RegExp(p, 'g'), n)` for a placeholder `p`
without regex syntax characters: every occurrence replaced, with `$`
expansion of `n` at each match. -/
def jsReplaceAll (p n s : String) : String :=
  ⟨replaceScan p.data (fun pos => getSubstitution s.data pos p.data n.data) (s.data.length + 1) 0 s.data⟩

/-- JavaScript `s.replace(p, n)` with a string pattern `p`: leftmost
occurrence replaced, with `$` expansion of `n`. -/
def jsReplaceFirst (p n s : String) : String :=
  ⟨replaceFirstScan p.data (fun pos => getSubstitution s.data pos p.data n.data) 0 s.data⟩

/-- Content substitution of `createComponent` (src/index.js line 102):
`templateContent.replace(new RegExp(placeholder, 'g'), componentName)`. -/
def componentContent (placeholder componentName templateContent : String) : String :=
  jsReplaceAll placeholder componentName templateContent

/-- File-name substitution of `createComponent` (src/index.js line 98):
`file.replace(placeholder, componentName)` — a string pattern, so only the
leftmost occurrence is replaced. -/
def componentFileName (placeholder componentName file : String) : String :=
  jsReplaceFirst placeholder componentName file

/-- Modelled from the spec's words, for comparison: the subject with every
occurrence of the placeholder replaced by the component name itself
(inserted verbatim, no `$` expansion). -/
def replaceEveryOccurrence (p n s : String) : String :=
  ⟨replaceScan p.data (fun _ => n.data) (s.data.length + 1) 0 s.data⟩

/-- Modelled from the spec's words, for comparison: the subject with the
first occurrence of the placeholder replaced by the component name itself. -/
def replaceFirstOccurrence (p n s : String) : String :=
  ⟨replaceFirstScan p.data (fun _ => n.data) 0 s.data⟩

/-- The component name inserted before every character of the subject and
once at its end (claim C8's description of an empty placeholder). -/
def insertEverywhere (n : List Char) : List Char → List Char
  | [] => n
  | c :: rest => n ++ c :: insertEverywhere n rest

/-- String form of `insertEverywhere`. -/
def insertBeforeEachCharAndAtEnd (n s : String) : String :=
  ⟨insertEverywhere n.data s.data⟩

/-- The replacement string contains no dollar character, so `GetSubstitution`
copies it verbatim. -/
def noDollar (s : String) : Bool :=
  s.data.all (fun c => c != dollarChar)

/-- Characters with a syntactic meaning in ECMAScript regular expressions. -/
def regexMetaChars : List Char :=
  [Char.ofNat 92, Char.ofNat 94, Char.ofNat 36, Char.ofNat 46, Char.ofNat 124,
   Char.ofNat 63, Char.ofNat 42, Char.ofNat 43, Char.ofNat 40, Char.ofNat 41,
   Char.ofNat 91, Char.ofNat 93, Char.ofNat 123, Char.ofNat 125]

/-- A placeholder without regex syntax characters: for such placeholders
`new RegExp(placeholder)` matches exactly the literal occurrences, which is
what the model's scan implements. -/
def regexSafe (s : String) : Bool :=
  s.data.all (fun c => !(regexMetaChars.contains c))

/-- Occurrence of `p` as a contiguous substring of `s`, at list level. -/
def occursInList (p : List Char) : List Char → Bool
  | [] => p.isPrefixOf []
  | c :: rest => p.isPrefixOf (c :: rest) || occursInList p rest

/-- Occurrence of `p` as a contiguous substring of `s`. -/
def occursIn (p s : String) : Bool :=
  occursInList p.data s.data

theorem getSubstitution_of_noDollar (orig : List Char) (pos : Nat) (m : List Char) :
    ∀ n : List Char, n.all (fun c => c != dollarChar) = true →
      getSubstitution orig pos m n = n := by
  intro n
  induction n with
  | nil => intro _; rfl
  | cons c rest ih =>
    intro hn
    rw [List.all_cons, Bool.and_eq_true] at hn
    have hc : ¬ c = dollarChar := by
      intro h
      rw [h] at hn
      simp [bne] at hn
    cases rest with
    | nil => simp [getSubstitution, hc]
    | cons d rest2 =>
      simp only [getSubstitution]
      rw [if_neg hc, ih hn.2]

theorem jsReplaceAll_of_noDollar (p n s : String) (hn : noDollar n = true) :
    jsReplaceAll p n s = replaceEveryOccurrence p n s := by
  unfold jsReplaceAll replaceEveryOccurrence
  have h : (fun pos => getSubstitution s.data pos p.data n.data) = (fun _ : Nat => n.data) := by
    funext pos
    exact getSubstitution_of_noDollar s.data pos p.data n.data hn
  rw [h]

theorem jsReplaceFirst_of_noDollar (p n s : String) (hn : noDollar n = true) :
    jsReplaceFirst p n s = replaceFirstOccurrence p n s := by
  unfold jsReplaceFirst replaceFirstOccurrence
  have h : (fun pos => getSubstitution s.data pos p.data n.data) = (fun _ : Nat => n.data) := by
    funext pos
    exact getSubstitution_of_noDollar s.data pos p.data n.data hn
  rw [h]

theorem string_data_append (a b : String) : (a ++ b).data = a.data ++ b.data := rfl

theorem isPrefixOf_append_self (p t : List Char) : p.isPrefixOf (p ++ t) = true := by
  rw [List.isPrefixOf_iff_prefix]
  exact ⟨t, rfl⟩

theorem replaceFirstScan_append_self (p t : List Char) (rep : Nat → List Char) (pos : Nat) :
    replaceFirstScan p rep pos (p ++ t) = rep pos ++ t := by
  cases p with
  | nil =>
    cases t with
    | nil => rfl
    | cons c rest => rfl
  | cons c p' =>
    rw [List.cons_append]
    simp only [replaceFirstScan]
    rw [if_pos (by rw [← List.cons_append]; exact isPrefixOf_append_self (c :: p') t)]
    rw [← List.cons_append, List.drop_left]

/-- C1 (amended): for a template content of shape prefix + placeholder +
suffix and a component name that does not contain the placeholder, contains
no dollar character, and a placeholder free of regex syntax characters, the
written content is the template content with every occurrence of the
placeholder replaced by the name, not just the first. -/
theorem claim1_global_content_substitution (p n pre suf : String)
    (hreg : regexSafe p = true) (hnd : noDollar n = true)
    (hocc : occursIn p n = false) :
    componentContent p n (pre ++ p ++ suf) = replaceEveryOccurrence p n (pre ++ p ++ suf) := by
  exact jsReplaceAll_of_noDollar p n (pre ++ p ++ suf) hnd

/-- Witness for C1's amended theorem at placeholder "P", name "N",
content "aPb". -/
theorem claim1_witness :
    regexSafe "P" = true ∧ noDollar "N" = true ∧ occursIn "P" "N" = false ∧
      componentContent "P" "N" ("a" ++ "P" ++ "b") = replaceEveryOccurrence "P" "N" ("a" ++ "P" ++ "b") :=
  ⟨by decide, by decide, by decide,
    claim1_global_content_substitution "P" "N" "a" "b" (by decide) (by decide) (by decide)⟩

/-- C1 counterexample: with component name containing a dollar escape, the
code does not substitute the name itself.  Here the name is the two-character
string dollar-ampersand, which JavaScript expands to the matched text, so
the output is unchanged instead of containing the name. -/
theorem claim1_counterexample :
    componentContent "P" "$&" "aPb" = "aPb" ∧ ("aPb" : String) ≠ "a$&b" := by
  constructor
  · decide
  · decide

/-- C2 (amended): the output file name is the entry name with only the first
occurrence of the placeholder replaced (string-pattern replace); in
particular an entry named placeholder-plus-".js" still yields the name
followed by ".js" when the name has no dollar character. -/
theorem claim2_filename_first_occurrence (p n f : String) (hnd : noDollar n = true) :
    componentFileName p n f = replaceFirstOccurrence p n f ∧
      componentFileName p n (p ++ ".js") = n ++ ".js" := by
  constructor
  · exact jsReplaceFirst_of_noDollar p n f hnd
  · unfold componentFileName jsReplaceFirst
    rw [string_data_append]
    rw [replaceFirstScan_append_self]
    rw [getSubstitution_of_noDollar _ _ _ _ hnd]
    rfl

/-- Witness for C2's amended theorem at placeholder "P", name "N",
entry "P.js". -/
theorem claim2_witness :
    noDollar "N" = true ∧
      (componentFileName "P" "N" "P.js" = replaceFirstOccurrence "P" "N" "P.js" ∧
        componentFileName "P" "N" ("P" ++ ".js") = "N" ++ ".js") :=
  ⟨by decide, claim2_filename_first_occurrence "P" "N" "P.js" (by decide)⟩

/-- C2 counterexample: an entry with two literal occurrences of the
placeholder keeps its second occurrence, so the output entry name is not the
whole-string global replacement the claim states. -/
theorem claim2_counterexample :
    componentFileName "P" "Button" "P.P.js" = "Button.P.js" ∧
      ("Button.P.js" : String) ≠ "Button.Button.js" := by
  constructor
  · decide
  · decide

/-- Path segments splitting: an auxiliary scan accumulating the current
segment (reversed) while walking the characters. -/
def splitSegAux (cur : List Char) : List Char → List (List Char)
  | [] => [cur.reverse]
  | c :: rest =>
    if c = slashChar then cur.reverse :: splitSegAux [] rest
    else splitSegAux (c :: cur) rest

/-- A raw segment survives path normalisation when it is neither empty nor a
single dot. -/
def keepSegment (seg : List Char) : Bool :=
  !seg.isEmpty && !(seg == [dotChar])

/-- Normalised path segments of a path string, as produced by `path.join`:
split on slashes, dropping empty and single-dot segments.  (`..` segments,
which `path.join` would resolve, are kept literally: no claim exercises
them.) -/
def splitSegments (s : String) : List String :=
  ((splitSegAux [] s.data).filter keepSegment).map String.mk

/-- A directory path relative to the program's `__dirname`, as a list of
path segments. -/
abbrev DirPath := List String

/-- The configuration record parsed from `cg.config.json` (src/index.js
lines 85-89). -/
structure Config where
  COMPONENTS_DIR : String
  TEMPLATE_DIR : String
  COMPONENT_NAME_PLACEHOLDER : String
deriving DecidableEq, Repr

/-- State of the configuration file: absent, present but not valid JSON
(`JSON.parse` throws), or present and parsed.  JSON parsing itself is
abstracted by this three-way state. -/
inductive ConfigFile where
  | absent
  | invalid
  | valid (config : Config)
deriving DecidableEq, Repr

/-- The two terminating error cases of `readConfig` (src/index.js lines
22-47). -/
inductive ConfigError where
  | missing
  | invalidJson
deriving DecidableEq, Repr

/-- The remediation text printed by `readConfig` when `cg.config.json` is
absent (src/index.js lines 23-37), before `process.exit(1)`. -/
def configMissingMessage : String :=
  "\n  ❌ Config file not found!\n  Please create a \"cg.config.json\" in your project root directory and add the following config:\n  \n  \x7b\n    \"COMPONENTS_DIR\": \"the path to your components folder, e.g., src/components\",\n    \"TEMPLATE_DIR\": \"the path to your template folder\",\n    COMPONENT_NAME_PLACEHOLDER: \"The placeholder to be replaced with the actual component name in the template\"\n  \x7d\n\n  Example:\n    \"COMPONENTS_DIR\": \"./src/components\",\n    \"TEMPLATE_DIR\": \"./templates\",\n    COMPONENT_NAME_PLACEHOLDER: \"COMPONENT_NAME\"\n"

/-- The fixed part of the text printed by `readConfig` when reading or
parsing the config file throws (src/index.js line 45); the parse diagnostic
appended at runtime is abstracted away. -/
def configInvalidMessage : String :=
  "Error reading the config file:"

/-- The message each `ConfigError` prints. -/
def configErrorMessage : ConfigError → String
  | .missing => configMissingMessage
  | .invalidJson => configInvalidMessage

/-- The model of `readConfig` (src/index.js lines 19-48): fails with the
documented message when the file is absent or unparsable, otherwise returns
the parsed configuration.  `process.exit(1)` is represented by the `error`
branch, which `createComponent` turns into `RunResult.exitFailure`. -/
def readConfig : ConfigFile → Except ConfigError Config
  | .absent => .error .missing
  | .invalid => .error .invalidJson
  | .valid config => .ok config

/-- The filesystem visible to the program: the config-file state, the set of
existing directories and the files (path with contents).  Paths are segment
lists relative to `__dirname`. -/
structure FileSys where
  config : ConfigFile
  dirs : List DirPath
  files : List (DirPath × String)
deriving DecidableEq, Repr

/-- Outcome of one run: `exitFailure` models `console.error` followed by
`process.exit(1)` (exit status 1); `crash` models an unhandled exception from
an `fs` call (non-zero, non-graceful termination); `success` models the
final `console.log` and the implicit exit status 0. -/
inductive RunResult where
  | exitFailure (message : String)
  | crash
  | success (message : String)
deriving DecidableEq, Repr

/-- All initial segments of a directory path, from the root to the full
path: the directories `fs.mkdirSync(dir, recursive)` ensures exist. -/
def dirChain : DirPath → List DirPath
  | [] => [[]]
  | x :: rest => [] :: (dirChain rest).map (fun q => x :: q)

/-- Add a directory to the directory set if it is not already present. -/
def addDir (ds : List DirPath) (d : DirPath) : List DirPath :=
  if d ∈ ds then ds else ds ++ [d]

/-- Model of `fs.mkdirSync(componentDir, recursive: true)` (src/index.js
line 92): every missing initial segment of the path is created; an existing
directory is not an error. -/
def mkdirRecursive (fs : FileSys) (dir : DirPath) : FileSys :=
  { fs with dirs := (dirChain dir).foldl addDir fs.dirs }

/-- First-match lookup in the file association list. -/
def lookupFile : List (DirPath × String) → DirPath → Option String
  | [], _ => none
  | (q, c) :: rest, p => if q = p then some c else lookupFile rest p

/-- Model of `fs.writeFileSync`: replace the first entry with the given path
(overwriting silently), or append a new entry. -/
def setFile : List (DirPath × String) → DirPath → String → List (DirPath × String)
  | [], p, c => [(p, c)]
  | (q, d) :: rest, p, c => if q = p then (p, c) :: rest else (q, d) :: setFile rest p c

/-- The name under `dir` of a path one level below it, if any. -/
def childName (dir p : DirPath) : Option String :=
  if p.dropLast = dir then p.getLast? else none

/-- The file entries directly inside a directory, in file-list order. -/
def readdirFiles (files : List (DirPath × String)) (dir : DirPath) : List String :=
  files.filterMap (fun pc => childName dir pc.1)

/-- The subdirectory entries directly inside a directory.  `fs.readdirSync`
returns these too; reading one as a file later throws. -/
def readdirSubdirs (ds : List DirPath) (dir : DirPath) : List String :=
  ds.filterMap (childName dir)

/-- Model of `fs.readdirSync(templateDir)` (src/index.js line 94): `none`
(an exception, hence a crash) when the directory does not exist, otherwise
the names of the files and subdirectories directly inside it. -/
def readdirList (fs : FileSys) (dir : DirPath) : Option (List String) :=
  if dir ∈ fs.dirs then some (readdirFiles fs.files dir ++ readdirSubdirs fs.dirs dir)
  else none

/-- Model of `fs.writeFileSync(componentFilePath, componentContent)`
(src/index.js line 104): fails (throws) when the parent directory does not
exist or when a directory occupies the target path; otherwise writes,
silently overwriting an existing file. -/
def writeFile (fs : FileSys) (p : DirPath) (content : String) : Option FileSys :=
  if p.dropLast ∈ fs.dirs ∧ p ∉ fs.dirs then
    some { fs with files := setFile fs.files p content }
  else none

/-- The destination directory `componentDir` of src/index.js line 88:
`path.join(__dirname, config.COMPONENTS_DIR, componentName)`, as segments
relative to `__dirname`. -/
def componentDirOf (config : Config) (componentName : String) : DirPath :=
  splitSegments config.COMPONENTS_DIR ++ splitSegments componentName

/-- The source directory `templateDir` of src/index.js line 89:
`path.join(__dirname, config.TEMPLATE_DIR)`. -/
def templateDirOf (config : Config) : DirPath :=
  splitSegments config.TEMPLATE_DIR

/-- The success message logged at src/index.js line 107. -/
def successMessage (componentName : String) : String :=
  "Component " ++ componentName ++ " created/updated successfully!"

/-- The body of the `templateFiles.forEach` loop (src/index.js lines
96-105), folded over the listed entries: read each template file (a missing
file or a subdirectory entry throws), substitute the placeholder in its name
and content, and write the result into the component directory.  Returns the
filesystem reached together with `true` on completion or `false` on a crash
partway (no rollback). -/
def writeTemplates (placeholder componentName : String) (componentDir templateDir : DirPath) :
    FileSys → List String → FileSys × Bool
  | fs, [] => (fs, true)
  | fs, file :: rest =>
    match lookupFile fs.files (templateDir ++ [file]) with
    | none => (fs, false)
    | some templateContent =>
      match writeFile fs (componentDir ++ splitSegments (componentFileName placeholder componentName file))
          (componentContent placeholder componentName templateContent) with
      | none => (fs, false)
      | some fs' => writeTemplates placeholder componentName componentDir templateDir fs' rest

/-- The body of `createComponent` after `readConfig` has succeeded
(src/index.js lines 88-107). -/
def createComponentWithConfig (fs : FileSys) (componentName : String) (config : Config) :
    RunResult × FileSys :=
  let componentDir := componentDirOf config componentName
  let templateDir := templateDirOf config
  let placeholder := config.COMPONENT_NAME_PLACEHOLDER
  let fs1 := mkdirRecursive fs componentDir
  match readdirList fs1 templateDir with
  | none => (.crash, fs1)
  | some templateFiles =>
    match writeTemplates placeholder componentName componentDir templateDir fs1 templateFiles with
    | (fs2, true) => (.success (successMessage componentName), fs2)
    | (fs2, false) => (.crash, fs2)

/-- Model of `createComponent` (src/index.js lines 85-108): read the
configuration first, terminating with exit status 1 on failure, then create
the component directory, list the template directory and materialise every
entry. -/
def createComponent (fs : FileSys) (componentName : String) : RunResult × FileSys :=
  match readConfig fs.config with
  | .error e => (.exitFailure (configErrorMessage e), fs)
  | .ok config => createComponentWithConfig fs componentName config

theorem mem_foldl_addDir_of_mem (l : List DirPath) (ds : List DirPath) (d : DirPath)
    (h : d ∈ ds) : d ∈ l.foldl addDir ds := by
  induction l generalizing ds with
  | nil => exact h
  | cons x rest ih =>
    apply ih
    rw [addDir]
    split
    · exact h
    · exact List.mem_append_left _ h

theorem mem_addDir_self (ds : List DirPath) (d : DirPath) : d ∈ addDir ds d := by
  rw [addDir]
  split
  next h => exact h
  next h => exact List.mem_append_right _ (List.mem_singleton.mpr rfl)

theorem mem_foldl_addDir_of_mem_list (l : List DirPath) (ds : List DirPath) (d : DirPath)
    (h : d ∈ l) : d ∈ l.foldl addDir ds := by
  induction l generalizing ds with
  | nil => cases h
  | cons x rest ih =>
    rw [List.foldl_cons]
    rcases List.mem_cons.mp h with h1 | h2
    · subst h1
      exact mem_foldl_addDir_of_mem rest (addDir ds d) d (mem_addDir_self ds d)
    · exact ih (addDir ds x) h2

theorem self_mem_dirChain (d : DirPath) : d ∈ dirChain d := by
  induction d with
  | nil => exact List.mem_singleton.mpr rfl
  | cons x rest ih =>
    rw [dirChain]
    exact List.mem_cons.mpr (Or.inr (List.mem_map.mpr ⟨rest, ih, rfl⟩))

theorem mem_dirs_mkdirRecursive (fs : FileSys) (dir : DirPath) :
    dir ∈ (mkdirRecursive fs dir).dirs :=
  mem_foldl_addDir_of_mem_list (dirChain dir) fs.dirs dir (self_mem_dirChain dir)

/-- C3: with the configuration file absent or unparsable, the run exits with
status 1 carrying the documented message for that case, and the filesystem
is completely unchanged: no directory is created and no file is written,
because config loading happens and fails first. -/
theorem claim3_config_failure_clean_exit (fs : FileSys) (componentName : String) :
    (fs.config = .absent →
      createComponent fs componentName = (.exitFailure configMissingMessage, fs)) ∧
    (fs.config = .invalid →
      createComponent fs componentName = (.exitFailure configInvalidMessage, fs)) := by
  constructor
  · intro h
    rw [createComponent, h]
    rfl
  · intro h
    rw [createComponent, h]
    rfl

/-- Witness for C3 at a filesystem whose config file is absent. -/
theorem claim3_witness :
    (FileSys.mk .absent [] []).config = .absent ∧
      createComponent (FileSys.mk .absent [] []) "Button" =
        (.exitFailure configMissingMessage, FileSys.mk .absent [] []) :=
  ⟨rfl, (claim3_config_failure_clean_exit (FileSys.mk .absent [] []) "Button").1 rfl⟩

/-- The concrete filesystem of the spec's scenario: valid config pointing at
`./src/components` and `./template`, placeholder `COMPONENT_NAME`, and one
template file `COMPONENT_NAME.js`. -/
def scenarioFs : FileSys :=
  { config := .valid (Config.mk "./src/components" "./template" "COMPONENT_NAME"),
    dirs := [[], ["template"]],
    files := [(["template", "COMPONENT_NAME.js"], "export const COMPONENT_NAME = () => \x7b\x7d;")] }

/-- C5: on the documented concrete scenario, running with input `Button`
succeeds and produces `src/components/Button/Button.js` containing
`export const Button = () => \x7b\x7d;`. -/
theorem claim5_concrete_scenario :
    (createComponent scenarioFs "Button").1 = .success (successMessage "Button") ∧
      lookupFile (createComponent scenarioFs "Button").2.files
          ["src", "components", "Button", "Button.js"] =
        some "export const Button = () => \x7b\x7d;" := by
  constructor
  · decide
  · decide

/-- C9: when the template directory cannot be listed at the moment
`fs.readdirSync` runs, the run crashes, but only after `fs.mkdirSync` has
created the component directory: the crash state still contains the freshly
created directory (and no file was touched), so the failing run is not
atomic. -/
theorem claim9_mkdir_before_template_read (fs : FileSys) (componentName : String)
    (config : Config) (hcfg : fs.config = .valid config)
    (hrd : readdirList (mkdirRecursive fs (componentDirOf config componentName))
        (templateDirOf config) = none) :
    createComponent fs componentName =
        (.crash, mkdirRecursive fs (componentDirOf config componentName)) ∧
      componentDirOf config componentName ∈ (createComponent fs componentName).2.dirs ∧
      (createComponent fs componentName).2.files = fs.files := by
  have hrun : createComponent fs componentName =
      (.crash, mkdirRecursive fs (componentDirOf config componentName)) := by
    simp only [createComponent, hcfg, readConfig, createComponentWithConfig, hrd]
  refine ⟨hrun, ?_, ?_⟩
  · rw [hrun]
    exact mem_dirs_mkdirRecursive fs (componentDirOf config componentName)
  · rw [hrun]
    rfl

/-- Witness for C9: an empty filesystem with a valid config whose template
directory does not exist. -/
def missingTemplateFs : FileSys :=
  { config := .valid (Config.mk "c" "t" "P"), dirs := [], files := [] }

theorem claim9_witness :
    missingTemplateFs.config = .valid (Config.mk "c" "t" "P") ∧
      readdirList (mkdirRecursive missingTemplateFs (componentDirOf (Config.mk "c" "t" "P") "x"))
          (templateDirOf (Config.mk "c" "t" "P")) = none ∧
      createComponent missingTemplateFs "x" =
        (.crash, mkdirRecursive missingTemplateFs (componentDirOf (Config.mk "c" "t" "P") "x")) :=
  ⟨rfl, by decide,
    (claim9_mkdir_before_template_read missingTemplateFs "x" (Config.mk "c" "t" "P") rfl (by decide)).1⟩

/-- Replay a list of writes (path and content pairs) against a filesystem:
the write trace of the materialisation loop. -/
def applyWrites (fs : FileSys) : List (DirPath × String) → FileSys
  | [] => fs
  | (p, c) :: ws => applyWrites { fs with files := setFile fs.files p c } ws

/-- The content of the last write to a path in a write trace, if any. -/
def lastWrite (ws : List (DirPath × String)) (p : DirPath) : Option String :=
  lookupFile ws.reverse p

theorem applyWrites_dirs (ws : List (DirPath × String)) :
    ∀ fs : FileSys, (applyWrites fs ws).dirs = fs.dirs := by
  induction ws with
  | nil => intro fs; rfl
  | cons w rest ih =>
    intro fs
    cases w with
    | mk p c => exact ih { fs with files := setFile fs.files p c }

theorem applyWrites_config (ws : List (DirPath × String)) :
    ∀ fs : FileSys, (applyWrites fs ws).config = fs.config := by
  induction ws with
  | nil => intro fs; rfl
  | cons w rest ih =>
    intro fs
    cases w with
    | mk p c => exact ih { fs with files := setFile fs.files p c }

theorem applyWrites_append (a b : List (DirPath × String)) :
    ∀ fs : FileSys, applyWrites fs (a ++ b) = applyWrites (applyWrites fs a) b := by
  induction a with
  | nil => intro fs; rfl
  | cons w rest ih =>
    intro fs
    cases w with
    | mk p c =>
      rw [List.cons_append]
      exact ih { fs with files := setFile fs.files p c }

theorem lookupFile_setFile_self (m : List (DirPath × String)) (p : DirPath) (c : String) :
    lookupFile (setFile m p c) p = some c := by
  induction m with
  | nil => simp [setFile, lookupFile]
  | cons e rest ih =>
    cases e with
    | mk q d =>
      by_cases h : q = p
      · simp [setFile, h, lookupFile]
      · simp only [setFile, lookupFile, if_neg h]
        exact ih

theorem lookupFile_setFile_ne (m : List (DirPath × String)) (p : DirPath) (c : String)
    (q : DirPath) (h : q ≠ p) : lookupFile (setFile m p c) q = lookupFile m q := by
  induction m with
  | nil =>
    simp only [setFile, lookupFile]
    rw [if_neg (fun he : p = q => h he.symm)]
  | cons e rest ih =>
    cases e with
    | mk r d =>
      by_cases hr : r = p
      · simp only [setFile, if_pos hr, lookupFile]
        rw [if_neg (fun he : p = q => h he.symm), if_neg (fun he : r = q => h (he.symm.trans hr))]
      · simp only [setFile, if_neg hr, lookupFile]
        by_cases hq : r = q
        · rw [if_pos hq, if_pos hq]
        · rw [if_neg hq, if_neg hq]
          exact ih

theorem lookupFile_append_of_some (a b : List (DirPath × String)) (p : DirPath) (c : String)
    (h : lookupFile a p = some c) : lookupFile (a ++ b) p = some c := by
  induction a with
  | nil => cases h
  | cons e rest ih =>
    cases e with
    | mk q d =>
      rw [List.cons_append, lookupFile]
      rw [lookupFile] at h
      by_cases hq : q = p
      · rw [if_pos hq] at h ⊢
        exact h
      · rw [if_neg hq] at h ⊢
        exact ih h

theorem lookupFile_append_of_none (a b : List (DirPath × String)) (p : DirPath)
    (h : lookupFile a p = none) : lookupFile (a ++ b) p = lookupFile b p := by
  induction a with
  | nil => rfl
  | cons e rest ih =>
    cases e with
    | mk q d =>
      rw [List.cons_append, lookupFile]
      rw [lookupFile] at h
      by_cases hq : q = p
      · rw [if_pos hq] at h
        cases h
      · rw [if_neg hq] at h ⊢
        exact ih h

theorem lookupFile_applyWrites (ws : List (DirPath × String)) :
    ∀ (fs : FileSys) (q : DirPath),
      lookupFile (applyWrites fs ws).files q =
        match lastWrite ws q with
        | some c => some c
        | none => lookupFile fs.files q := by
  induction ws with
  | nil => intro fs q; rfl
  | cons w rest ih =>
    intro fs q
    cases w with
    | mk p c =>
      rw [applyWrites, ih]
      have hrev : lastWrite ((p, c) :: rest) q = lookupFile (rest.reverse ++ [(p, c)]) q := by
        rw [lastWrite, List.reverse_cons]
      cases hlast : lastWrite rest q with
      | some d =>
        rw [hrev, lookupFile_append_of_some rest.reverse [(p, c)] q d hlast]
      | none =>
        rw [hrev, lookupFile_append_of_none rest.reverse [(p, c)] q hlast]
        by_cases hq : q = p
        · subst hq
          have h1 : lookupFile [(q, c)] q = some c := by simp [lookupFile]
          rw [h1, lookupFile_setFile_self]
        · have h1 : lookupFile [(p, c)] q = none := by
            simp only [lookupFile]
            rw [if_neg (fun he : p = q => hq he.symm)]
          rw [h1]
          exact lookupFile_setFile_ne fs.files p c q hq

theorem lookupFile_eq_some_mem (l : List (DirPath × String)) (q : DirPath) (c : String)
    (h : lookupFile l q = some c) : (q, c) ∈ l := by
  induction l with
  | nil => cases h
  | cons e rest ih =>
    cases e with
    | mk r d =>
      rw [lookupFile] at h
      by_cases hr : r = q
      · rw [if_pos hr] at h
        cases h
        subst hr
        exact List.mem_cons_self _ _
      · rw [if_neg hr] at h
        exact List.mem_cons_of_mem _ (ih h)

theorem writeTemplates_writes (ph n : String) (cD tD : DirPath) :
    ∀ (rest : List String) (fs : FileSys), ∃ ws : List (DirPath × String),
      (writeTemplates ph n cD tD fs rest).1 = applyWrites fs ws ∧
      ∀ w ∈ ws, w.1 ∈ rest.map (fun f => cD ++ splitSegments (componentFileName ph n f)) := by
  intro rest
  induction rest with
  | nil =>
    intro fs
    exact ⟨[], rfl, by intro w hw; cases hw⟩
  | cons f rest ih =>
    intro fs
    cases hlk : lookupFile fs.files (tD ++ [f]) with
    | none =>
      have hstep : writeTemplates ph n cD tD fs (f :: rest) = (fs, false) := by
        simp only [writeTemplates, hlk]
      rw [hstep]
      exact ⟨[], rfl, by intro w hw; cases hw⟩
    | some tc =>
      cases hwf : writeFile fs (cD ++ splitSegments (componentFileName ph n f))
          (componentContent ph n tc) with
      | none =>
        have hstep : writeTemplates ph n cD tD fs (f :: rest) = (fs, false) := by
          simp only [writeTemplates, hlk, hwf]
        rw [hstep]
        exact ⟨[], rfl, by intro w hw; cases hw⟩
      | some fs' =>
        have hstep : writeTemplates ph n cD tD fs (f :: rest) = writeTemplates ph n cD tD fs' rest := by
          simp only [writeTemplates, hlk, hwf]
        rw [hstep]
        have hfs' : fs' = { fs with files := setFile fs.files (cD ++ splitSegments (componentFileName ph n f)) (componentContent ph n tc) } := by
          rw [writeFile] at hwf
          split at hwf
          · cases hwf
            rfl
          · cases hwf
        obtain ⟨ws, hws, hmem⟩ := ih fs'
        refine ⟨(cD ++ splitSegments (componentFileName ph n f), componentContent ph n tc) :: ws, ?_, ?_⟩
        · rw [applyWrites, ← hfs']
          exact hws
        · intro w hw
          rcases List.mem_cons.mp hw with h1 | h2
          · subst h1
            rw [List.map_cons]
            exact List.mem_cons_self _ _
          · rw [List.map_cons]
            exact List.mem_cons_of_mem _ (hmem w h2)

/-- The output paths a run with the given filesystem and component name
writes to: one per template entry listed, placeholder-substituted. -/
def outputPaths (fs : FileSys) (componentName : String) : List DirPath :=
  match readConfig fs.config with
  | .error _ => []
  | .ok config =>
    match readdirList (mkdirRecursive fs (componentDirOf config componentName))
        (templateDirOf config) with
    | none => []
    | some templateFiles =>
      templateFiles.map (fun file =>
        componentDirOf config componentName ++
          splitSegments (componentFileName config.COMPONENT_NAME_PLACEHOLDER componentName file))

/-- C7: materialisation only creates or overwrites the files at the computed
output paths; any path different from every output path (in particular every
unrelated file already in the destination directory) keeps exactly its
previous presence and content, whether the run succeeds or crashes
partway. -/
theorem claim7_unrelated_files_preserved (fs : FileSys) (componentName : String) (q : DirPath)
    (hq : q ∉ outputPaths fs componentName) :
    lookupFile (createComponent fs componentName).2.files q = lookupFile fs.files q := by
  cases hc : readConfig fs.config with
  | error e =>
    simp only [createComponent, hc]
  | ok config =>
    simp only [createComponent, hc, createComponentWithConfig]
    simp only [outputPaths, hc] at hq
    cases hrd : readdirList (mkdirRecursive fs (componentDirOf config componentName))
        (templateDirOf config) with
    | none => rfl
    | some templateFiles =>
      simp only [hrd] at hq
      obtain ⟨ws, hws, hmem⟩ := writeTemplates_writes config.COMPONENT_NAME_PLACEHOLDER
        componentName (componentDirOf config componentName) (templateDirOf config) templateFiles
        (mkdirRecursive fs (componentDirOf config componentName))
      cases hwt : writeTemplates config.COMPONENT_NAME_PLACEHOLDER componentName
          (componentDirOf config componentName) (templateDirOf config)
          (mkdirRecursive fs (componentDirOf config componentName)) templateFiles with
      | mk fs2 b =>
        rw [hwt] at hws
        have hlook : lookupFile fs2.files q = lookupFile fs.files q := by
          have hfs2 : fs2 = applyWrites (mkdirRecursive fs (componentDirOf config componentName)) ws := hws
          rw [hfs2, lookupFile_applyWrites]
          cases hlast : lastWrite ws q with
          | some c =>
            exfalso
            have hmemq : (q, c) ∈ ws := by
              rw [lastWrite] at hlast
              exact (List.mem_reverse).mp (lookupFile_eq_some_mem ws.reverse q c hlast)
            exact hq (hmem (q, c) hmemq)
          | none => rfl
        simp only [hwt]
        cases b
        · exact hlook
        · exact hlook

theorem lookupFile_setFile_isSome (m : List (DirPath × String)) (p : DirPath) (c : String)
    (q : DirPath) (h : (lookupFile m q).isSome = true) :
    (lookupFile (setFile m p c) q).isSome = true := by
  by_cases hq : q = p
  · subst hq
    rw [lookupFile_setFile_self]
    rfl
  · rw [lookupFile_setFile_ne m p c q hq]
    exact h

theorem lookupFile_applyWrites_isSome (ws : List (DirPath × String)) (fs : FileSys) (q : DirPath)
    (h : (lookupFile fs.files q).isSome = true) :
    (lookupFile (applyWrites fs ws).files q).isSome = true := by
  rw [lookupFile_applyWrites]
  cases hlast : lastWrite ws q with
  | none => exact h
  | some c => rfl

theorem writeTemplates_ok (ph n : String) (cD tD : DirPath) :
    ∀ (rest : List String) (fs : FileSys),
      (∀ f ∈ rest, (lookupFile fs.files (tD ++ [f])).isSome = true) →
      (∀ f ∈ rest, (cD ++ splitSegments (componentFileName ph n f)).dropLast ∈ fs.dirs ∧
          (cD ++ splitSegments (componentFileName ph n f)) ∉ fs.dirs) →
      (writeTemplates ph n cD tD fs rest).2 = true ∧
      (writeTemplates ph n cD tD fs rest).1.dirs = fs.dirs ∧
      ∀ f ∈ rest, (lookupFile (writeTemplates ph n cD tD fs rest).1.files
          (cD ++ splitSegments (componentFileName ph n f))).isSome = true := by
  intro rest
  induction rest with
  | nil =>
    intro fs _ _
    exact ⟨rfl, rfl, by intro f hf; cases hf⟩
  | cons f rest ih =>
    intro fs hreads houts
    obtain ⟨tc, htc⟩ := Option.isSome_iff_exists.mp (hreads f (List.mem_cons_self f rest))
    have hcond := houts f (List.mem_cons_self f rest)
    have hwf : writeFile fs (cD ++ splitSegments (componentFileName ph n f)) (componentContent ph n tc) = some { fs with files := setFile fs.files (cD ++ splitSegments (componentFileName ph n f)) (componentContent ph n tc) } := by
      rw [writeFile, if_pos hcond]
  
    have hstep : writeTemplates ph n cD tD fs (f :: rest) = writeTemplates ph n cD tD { fs with files := setFile fs.files (cD ++ splitSegments (componentFileName ph n f)) (componentContent ph n tc) } rest := by
      simp only [writeTemplates, htc, hwf]
    have hreads2 : ∀ g ∈ rest, (lookupFile ({ fs with files := setFile fs.files (cD ++ splitSegments (componentFileName ph n f)) (componentContent ph n tc) } : FileSys).files (tD ++ [g])).isSome = true :=
      fun g hg => lookupFile_setFile_isSome fs.files _ _ _ (hreads g (List.mem_cons_of_mem f hg))
    have houts2 : ∀ g ∈ rest, (cD ++ splitSegments (componentFileName ph n g)).dropLast ∈ ({ fs with files := setFile fs.files (cD ++ splitSegments (componentFileName ph n f)) (componentContent ph n tc) } : FileSys).dirs ∧ (cD ++ splitSegments (componentFileName ph n g)) ∉ ({ fs with files := setFile fs.files (cD ++ splitSegments (componentFileName ph n f)) (componentContent ph n tc) } : FileSys).dirs :=
      fun g hg => houts g (List.mem_cons_of_mem f hg)
    obtain ⟨hok, hdirs, hfiles⟩ := ih _ hreads2 houts2
    rw [hstep]
    refine ⟨hok, ?_, ?_⟩
    · rw [hdirs]
    · intro g hg
      rcases List.mem_cons.mp hg with h1 | h2
      · subst h1
        obtain ⟨ws, hws, _⟩ := writeTemplates_writes ph n cD tD rest { fs with files := setFile fs.files (cD ++ splitSegments (componentFileName ph n g)) (componentContent ph n tc) }
        rw [hws]
        apply lookupFile_applyWrites_isSome
        show (lookupFile (setFile fs.files (cD ++ splitSegments (componentFileName ph n g)) (componentContent ph n tc)) (cD ++ splitSegments (componentFileName ph n g))).isSome = true
        rw [lookupFile_setFile_self]
        rfl
      · exact hfiles g h2

theorem createComponent_success_general (fs : FileSys) (n : String) (config : Config)
    (es : List String)
    (hcfg : fs.config = .valid config)
    (hrd : readdirList (mkdirRecursive fs (componentDirOf config n)) (templateDirOf config) = some es)
    (hreads : ∀ f ∈ es, (lookupFile fs.files (templateDirOf config ++ [f])).isSome = true)
    (houts : ∀ f ∈ es,
        (splitSegments (componentFileName config.COMPONENT_NAME_PLACEHOLDER n f)).length = 1 ∧
        componentDirOf config n ++ splitSegments (componentFileName config.COMPONENT_NAME_PLACEHOLDER n f)
          ∉ (mkdirRecursive fs (componentDirOf config n)).dirs) :
    (createComponent fs n).1 = .success (successMessage n) ∧
      (∀ d ∈ dirChain (componentDirOf config n), d ∈ (createComponent fs n).2.dirs) ∧
      ∀ f ∈ es, (lookupFile (createComponent fs n).2.files
          (componentDirOf config n ++ splitSegments (componentFileName config.COMPONENT_NAME_PLACEHOLDER n f))).isSome = true := by
  have houts2 : ∀ f ∈ es,
      (componentDirOf config n ++ splitSegments (componentFileName config.COMPONENT_NAME_PLACEHOLDER n f)).dropLast ∈ (mkdirRecursive fs (componentDirOf config n)).dirs ∧
      (componentDirOf config n ++ splitSegments (componentFileName config.COMPONENT_NAME_PLACEHOLDER n f)) ∉ (mkdirRecursive fs (componentDirOf config n)).dirs := by
    intro f hf
    obtain ⟨hlen, hnot⟩ := houts f hf
    obtain ⟨x, hx⟩ := List.length_eq_one.mp hlen
    refine ⟨?_, hnot⟩
    rw [hx, List.dropLast_concat]
    exact mem_dirs_mkdirRecursive fs (componentDirOf config n)
  have hreads2 : ∀ f ∈ es,
      (lookupFile (mkdirRecursive fs (componentDirOf config n)).files (templateDirOf config ++ [f])).isSome = true :=
    fun f hf => hreads f hf
  obtain ⟨hok, hdirs, hfiles⟩ := writeTemplates_ok config.COMPONENT_NAME_PLACEHOLDER n
    (componentDirOf config n) (templateDirOf config) es
    (mkdirRecursive fs (componentDirOf config n)) hreads2 houts2
  have hcc : createComponent fs n = (RunResult.success (successMessage n),
      (writeTemplates config.COMPONENT_NAME_PLACEHOLDER n (componentDirOf config n)
        (templateDirOf config) (mkdirRecursive fs (componentDirOf config n)) es).1) := by
    cases hwt : writeTemplates config.COMPONENT_NAME_PLACEHOLDER n (componentDirOf config n)
        (templateDirOf config) (mkdirRecursive fs (componentDirOf config n)) es with
    | mk fs2 b =>
      have hb : b = true := by
        have := hok
        rw [hwt] at this
        exact this
      subst hb
      simp only [createComponent, hcfg, readConfig, createComponentWithConfig, hrd, hwt]
  refine ⟨?_, ?_, ?_⟩
  · rw [hcc]
  · intro d hd
    rw [hcc]
    show d ∈ (writeTemplates config.COMPONENT_NAME_PLACEHOLDER n (componentDirOf config n)
      (templateDirOf config) (mkdirRecursive fs (componentDirOf config n)) es).1.dirs
    rw [hdirs]
    exact mem_foldl_addDir_of_mem_list (dirChain (componentDirOf config n)) fs.dirs d hd
  · intro f hf
    rw [hcc]
    exact hfiles f hf

/-- C10 counterexample: with template entry `P.js`, placeholder `P` and the
component name `a/b`, the substituted output name `a/b.js` gains a path
separator, so the write targets a directory that was never created and the
run crashes instead of succeeding. -/
def crashNestedFs : FileSys :=
  { config := .valid (Config.mk "c" "t" "P"), dirs := [[], ["t"]],
    files := [(["t", "P.js"], "hello")] }

theorem claim10_counterexample :
    (createComponent crashNestedFs "a/b").1 = RunResult.crash := by decide

/-- C10 (amended): for a component name containing a path separator, when
every computed output file name stays a single path segment (for instance
because no template entry name contains the placeholder) and no directory
occupies an output path, materialisation succeeds: the recursive `mkdirSync`
creates the whole nested chain of the component directory and the output
files are written inside its innermost directory. -/
theorem claim10_nested_names (fs : FileSys) (n : String) (config : Config) (es : List String)
    (hcfg : fs.config = .valid config)
    (hsep : n.data.contains slashChar = true)
    (hrd : readdirList (mkdirRecursive fs (componentDirOf config n)) (templateDirOf config) = some es)
    (hreads : ∀ f ∈ es, (lookupFile fs.files (templateDirOf config ++ [f])).isSome = true)
    (houts : ∀ f ∈ es,
        (splitSegments (componentFileName config.COMPONENT_NAME_PLACEHOLDER n f)).length = 1 ∧
        componentDirOf config n ++ splitSegments (componentFileName config.COMPONENT_NAME_PLACEHOLDER n f)
          ∉ (mkdirRecursive fs (componentDirOf config n)).dirs) :
    (createComponent fs n).1 = .success (successMessage n) ∧
      (∀ d ∈ dirChain (componentDirOf config n), d ∈ (createComponent fs n).2.dirs) ∧
      ∀ f ∈ es, (lookupFile (createComponent fs n).2.files
          (componentDirOf config n ++ splitSegments (componentFileName config.COMPONENT_NAME_PLACEHOLDER n f))).isSome = true :=
  createComponent_success_general fs n config es hcfg hrd hreads houts

/-- Witness filesystem for C10: the template entry name does not contain the
placeholder, so the output name stays a single segment. -/
def nestedOkFs : FileSys :=
  { config := .valid (Config.mk "c" "t" "P"), dirs := [[], ["t"]],
    files := [(["t", "file.js"], "P stuff")] }

theorem claim10_witness :
    nestedOkFs.config = .valid (Config.mk "c" "t" "P") ∧
      "a/b".data.contains slashChar = true ∧
      readdirList (mkdirRecursive nestedOkFs (componentDirOf (Config.mk "c" "t" "P") "a/b"))
          (templateDirOf (Config.mk "c" "t" "P")) = some ["file.js"] ∧
      (∀ f ∈ ["file.js"], (lookupFile nestedOkFs.files (templateDirOf (Config.mk "c" "t" "P") ++ [f])).isSome = true) ∧
      (∀ f ∈ ["file.js"], (splitSegments (componentFileName "P" "a/b" f)).length = 1 ∧
          componentDirOf (Config.mk "c" "t" "P") "a/b" ++ splitSegments (componentFileName "P" "a/b" f)
            ∉ (mkdirRecursive nestedOkFs (componentDirOf (Config.mk "c" "t" "P") "a/b")).dirs) ∧
      (createComponent nestedOkFs "a/b").1 = .success (successMessage "a/b") :=
  ⟨rfl, by decide, by decide, by decide, by decide,
    (claim10_nested_names nestedOkFs "a/b" (Config.mk "c" "t" "P") ["file.js"] rfl (by decide)
      (by decide) (by decide) (by decide)).1⟩

theorem replaceScan_empty_pattern (nd : List Char) :
    ∀ (sd : List Char) (pos : Nat),
      replaceScan [] (fun _ => nd) (sd.length + 1) pos sd = insertEverywhere nd sd := by
  intro sd
  induction sd with
  | nil => intro pos; rfl
  | cons c rest ih =>
    intro pos
    show nd ++ c :: replaceScan [] (fun _ => nd) (rest.length + 1) (pos + 1) rest =
      nd ++ c :: insertEverywhere nd rest
    rw [ih (pos + 1)]

theorem replaceFirstScan_empty_pattern (rep : Nat → List Char) (pos : Nat) :
    ∀ sd : List Char, replaceFirstScan [] rep pos sd = rep pos ++ sd := by
  intro sd
  cases sd with
  | nil => rfl
  | cons c rest => rfl

/-- C8 (amended): with the empty string configured as placeholder,
materialisation still succeeds (under a readable template setup whose output
names are single segments), and for a component name free of dollar
characters every output content is the name inserted before every character
of the template content and once at its end, while every output file name is
the name prepended to the entry name.  (A name containing dollar escapes is
expanded against the empty match instead of being inserted.) -/
theorem claim8_empty_placeholder :
    (∀ n s : String, noDollar n = true →
        componentContent "" n s = insertBeforeEachCharAndAtEnd n s) ∧
    (∀ n f : String, noDollar n = true → componentFileName "" n f = n ++ f) ∧
    (∀ (fs : FileSys) (n : String) (config : Config) (es : List String),
        fs.config = .valid config →
        config.COMPONENT_NAME_PLACEHOLDER = "" →
        readdirList (mkdirRecursive fs (componentDirOf config n)) (templateDirOf config) = some es →
        (∀ f ∈ es, (lookupFile fs.files (templateDirOf config ++ [f])).isSome = true) →
        (∀ f ∈ es, (splitSegments (componentFileName config.COMPONENT_NAME_PLACEHOLDER n f)).length = 1 ∧
            componentDirOf config n ++ splitSegments (componentFileName config.COMPONENT_NAME_PLACEHOLDER n f)
              ∉ (mkdirRecursive fs (componentDirOf config n)).dirs) →
        (createComponent fs n).1 = .success (successMessage n)) := by
  refine ⟨?_, ?_, ?_⟩
  · intro n s hn
    rw [componentContent, jsReplaceAll_of_noDollar "" n s hn]
    rw [replaceEveryOccurrence, insertBeforeEachCharAndAtEnd]
    exact congrArg String.mk (replaceScan_empty_pattern n.data s.data 0)
  · intro n f hn
    rw [componentFileName, jsReplaceFirst_of_noDollar "" n f hn]
    rw [replaceFirstOccurrence]
    exact congrArg String.mk (replaceFirstScan_empty_pattern (fun _ => n.data) 0 f.data)
  · intro fs n config es hcfg hph hrd hreads houts
    exact (createComponent_success_general fs n config es hcfg hrd hreads houts).1

/-- C8 counterexample: with the empty placeholder and the dollar-ampersand
name, every insertion point expands to the empty matched text, so the output
equals the input rather than having the name inserted at every position. -/
theorem claim8_counterexample :
    componentContent "" "$&" "ab" = "ab" ∧ ("ab" : String) ≠ "$&a$&b$&" := by
  constructor
  · decide
  · decide

/-- Witness filesystem for C8: empty placeholder, one template file. -/
def emptyPlaceholderFs : FileSys :=
  { config := .valid (Config.mk "c" "t" ""), dirs := [[], ["t"]],
    files := [(["t", "f.js"], "ab")] }

theorem claim8_witness :
    noDollar "N" = true ∧
      componentContent "" "N" "ab" = insertBeforeEachCharAndAtEnd "N" "ab" ∧
      componentFileName "" "N" "f.js" = "N" ++ "f.js" ∧
      (createComponent emptyPlaceholderFs "N").1 = .success (successMessage "N") :=
  ⟨by decide,
    claim8_empty_placeholder.1 "N" "ab" (by decide),
    claim8_empty_placeholder.2.1 "N" "f.js" (by decide),
    claim8_empty_placeholder.2.2 emptyPlaceholderFs "N" (Config.mk "c" "t" "") ["f.js"]
      rfl rfl (by decide) (by decide) (by decide)⟩

theorem string_mk_data (s : String) : String.mk s.data = s := by
  cases s
  rfl

theorem splitSegAux_no_slash (l : List Char) :
    ∀ cur : List Char, (∀ c ∈ l, ¬ c = slashChar) → splitSegAux cur l = [cur.reverse ++ l] := by
  induction l with
  | nil =>
    intro cur _
    rw [splitSegAux, List.append_nil]
  | cons c rest ih =>
    intro cur h
    rw [splitSegAux, if_neg (h c (List.mem_cons_self c rest))]
    rw [ih (c :: cur) (fun d hd => h d (List.mem_cons_of_mem c hd))]
    rw [List.reverse_cons, List.append_assoc, List.singleton_append]

theorem splitSegments_single (s : String) (hslash : s.data.all (fun c => c != slashChar) = true)
    (hne : s ≠ "") (hdot : s ≠ ".") : splitSegments s = [s] := by
  have hs : ∀ c ∈ s.data, ¬ c = slashChar := by
    intro c hc heq
    have hall := List.all_eq_true.mp hslash c hc
    rw [heq] at hall
    simp [bne] at hall
  rw [splitSegments, splitSegAux_no_slash s.data [] hs, List.reverse_nil, List.nil_append]
  have hnil : s.data ≠ [] := by
    intro hd
    apply hne
    rw [← string_mk_data s, hd]
  have hkeep : keepSegment s.data = true := by
    rw [keepSegment]
    have h1 : s.data.isEmpty = false := by
      cases hd : s.data with
      | nil => exact absurd hd hnil
      | cons a l => rfl
    have h2 : (s.data == [dotChar]) = false := by
      rw [beq_eq_false_iff_ne]
      intro hd
      apply hdot
      rw [← string_mk_data s, hd]
      decide
    rw [h1, h2]
    rfl
  rw [List.filter_cons, if_pos hkeep]
  rw [List.filter_nil, List.map_cons, List.map_nil, string_mk_data]

/-- C4 (amended): the component name reaches the destination directory path
unsanitised (for a plain-segment name it is literally the final directory
segment), and it is substituted verbatim into file contents and file names
provided it contains no dollar character; a name containing dollar escape
sequences is transformed by the ECMAScript replacement rules instead of
being inserted verbatim. -/
theorem claim4_name_used_verbatim (config : Config) (p n s f : String)
    (hreg : regexSafe p = true) (hnd : noDollar n = true)
    (hslash : n.data.all (fun c => c != slashChar) = true) (hne : n ≠ "") (hdot : n ≠ ".") :
    componentContent p n s = replaceEveryOccurrence p n s ∧
      componentFileName p n f = replaceFirstOccurrence p n f ∧
      componentDirOf config n = splitSegments config.COMPONENTS_DIR ++ [n] := by
  refine ⟨jsReplaceAll_of_noDollar p n s hnd, jsReplaceFirst_of_noDollar p n f hnd, ?_⟩
  rw [componentDirOf, splitSegments_single n hslash hne hdot]

/-- C4 counterexample: the two-character name dollar-dollar is not
substituted verbatim into a file name: JavaScript collapses the escape to a
single dollar, so `P.js` becomes `$.js`, not `$$.js`. -/
theorem claim4_counterexample :
    componentFileName "P" "$$" "P.js" = "$.js" ∧ ("$.js" : String) ≠ "$$.js" := by
  constructor
  · decide
  · decide

/-- Witness for C4's amended theorem at a dollar-free plain-segment name. -/
theorem claim4_witness :
    regexSafe "P" = true ∧ noDollar "N" = true ∧
      ("N".data.all (fun c => c != slashChar) = true ∧ ("N" : String) ≠ "" ∧ ("N" : String) ≠ ".") ∧
      (componentContent "P" "N" "aPb" = replaceEveryOccurrence "P" "N" "aPb" ∧
        componentFileName "P" "N" "P.js" = replaceFirstOccurrence "P" "N" "P.js" ∧
        componentDirOf (Config.mk "c" "t" "P") "N" = splitSegments "c" ++ ["N"]) :=
  ⟨by decide, by decide, ⟨by decide, by decide, by decide⟩,
    claim4_name_used_verbatim (Config.mk "c" "t" "P") "P" "N" "aPb" "P.js"
      (by decide) (by decide) (by decide) (by decide) (by decide)⟩

theorem foldl_addDir_of_subset (l : List DirPath) :
    ∀ ds : List DirPath, (∀ d ∈ l, d ∈ ds) → l.foldl addDir ds = ds := by
  induction l with
  | nil => intro ds _; rfl
  | cons x rest ih =>
    intro ds h
    rw [List.foldl_cons, addDir, if_pos (h x (List.mem_cons_self x rest))]
    exact ih ds (fun d hd => h d (List.mem_cons_of_mem x hd))

theorem mkdirRecursive_eq_self (fs : FileSys) (dir : DirPath)
    (h : ∀ d ∈ dirChain dir, d ∈ fs.dirs) : mkdirRecursive fs dir = fs := by
  rw [mkdirRecursive, foldl_addDir_of_subset (dirChain dir) fs.dirs h]

theorem readdirList_mem_dirs (fs : FileSys) (dir : DirPath) (es : List String)
    (h : readdirList fs dir = some es) : dir ∈ fs.dirs := by
  rw [readdirList] at h
  by_cases hd : dir ∈ fs.dirs
  · exact hd
  · rw [if_neg hd] at h
    cases h

theorem writeTemplates_sim (ph n : String) (cD tD : DirPath) :
    ∀ (rest : List String) (ws : List (DirPath × String)) (fsA fsB : FileSys),
      fsA.dirs = fsB.dirs →
      (∀ f ∈ rest, lookupFile fsB.files (tD ++ [f]) = lookupFile fsA.files (tD ++ [f])) →
      ∃ (ws2 : List (DirPath × String)) (b : Bool),
        writeTemplates ph n cD tD (applyWrites fsA ws) rest = (applyWrites fsA (ws ++ ws2), b) ∧
        writeTemplates ph n cD tD (applyWrites fsB ws) rest = (applyWrites fsB (ws ++ ws2), b) := by
  intro rest
  induction rest with
  | nil =>
    intro ws fsA fsB _ _
    refine ⟨[], true, ?_, ?_⟩
    · rw [List.append_nil]
      rfl
    · rw [List.append_nil]
      rfl
  | cons f rest ih =>
    intro ws fsA fsB hdirs hagree
    have hread : lookupFile (applyWrites fsB ws).files (tD ++ [f]) =
        lookupFile (applyWrites fsA ws).files (tD ++ [f]) := by
      rw [lookupFile_applyWrites, lookupFile_applyWrites]
      cases hlast : lastWrite ws (tD ++ [f]) with
      | some c => rfl
      | none => exact hagree f (List.mem_cons_self f rest)
    cases hlkA : lookupFile (applyWrites fsA ws).files (tD ++ [f]) with
    | none =>
      have hlkB : lookupFile (applyWrites fsB ws).files (tD ++ [f]) = none := by
        rw [hread, hlkA]
      have hstepA : writeTemplates ph n cD tD (applyWrites fsA ws) (f :: rest) =
          (applyWrites fsA ws, false) := by
        simp only [writeTemplates, hlkA]
      have hstepB : writeTemplates ph n cD tD (applyWrites fsB ws) (f :: rest) =
          (applyWrites fsB ws, false) := by
        simp only [writeTemplates, hlkB]
      refine ⟨[], false, ?_, ?_⟩
      · rw [List.append_nil]
        exact hstepA
      · rw [List.append_nil]
        exact hstepB
    | some tc =>
      have hlkB : lookupFile (applyWrites fsB ws).files (tD ++ [f]) = some tc := by
        rw [hread, hlkA]
      by_cases hcond : (cD ++ splitSegments (componentFileName ph n f)).dropLast ∈ fsA.dirs ∧
          (cD ++ splitSegments (componentFileName ph n f)) ∉ fsA.dirs
      · have hcondA : (cD ++ splitSegments (componentFileName ph n f)).dropLast ∈ (applyWrites fsA ws).dirs ∧
            (cD ++ splitSegments (componentFileName ph n f)) ∉ (applyWrites fsA ws).dirs := by
          rw [applyWrites_dirs]
          exact hcond
        have hcondB : (cD ++ splitSegments (componentFileName ph n f)).dropLast ∈ (applyWrites fsB ws).dirs ∧
            (cD ++ splitSegments (componentFileName ph n f)) ∉ (applyWrites fsB ws).dirs := by
          rw [applyWrites_dirs, ← hdirs]
          exact hcond
        have hwfA : writeFile (applyWrites fsA ws) (cD ++ splitSegments (componentFileName ph n f)) (componentContent ph n tc) = some { applyWrites fsA ws with files := setFile (applyWrites fsA ws).files (cD ++ splitSegments (componentFileName ph n f)) (componentContent ph n tc) } := by
          rw [writeFile, if_pos hcondA]
        have hwfB : writeFile (applyWrites fsB ws) (cD ++ splitSegments (componentFileName ph n f)) (componentContent ph n tc) = some { applyWrites fsB ws with files := setFile (applyWrites fsB ws).files (cD ++ splitSegments (componentFileName ph n f)) (componentContent ph n tc) } := by
          rw [writeFile, if_pos hcondB]
        have hstepA : writeTemplates ph n cD tD (applyWrites fsA ws) (f :: rest) =
            writeTemplates ph n cD tD (applyWrites fsA (ws ++ [(cD ++ splitSegments (componentFileName ph n f), componentContent ph n tc)])) rest := by
          simp only [writeTemplates, hlkA, hwfA]
          rw [applyWrites_append]
          rfl
        have hstepB : writeTemplates ph n cD tD (applyWrites fsB ws) (f :: rest) =
            writeTemplates ph n cD tD (applyWrites fsB (ws ++ [(cD ++ splitSegments (componentFileName ph n f), componentContent ph n tc)])) rest := by
          simp only [writeTemplates, hlkB, hwfB]
          rw [applyWrites_append]
          rfl
        obtain ⟨ws2, b, hA, hB⟩ := ih (ws ++ [(cD ++ splitSegments (componentFileName ph n f), componentContent ph n tc)])
          fsA fsB hdirs (fun g hg => hagree g (List.mem_cons_of_mem f hg))
        refine ⟨(cD ++ splitSegments (componentFileName ph n f), componentContent ph n tc) :: ws2, b, ?_, ?_⟩
        · rw [hstepA, hA]
          rw [show ws ++ ((cD ++ splitSegments (componentFileName ph n f), componentContent ph n tc) :: ws2) = (ws ++ [(cD ++ splitSegments (componentFileName ph n f), componentContent ph n tc)]) ++ ws2 by simp]
        · rw [hstepB, hB]
          rw [show ws ++ ((cD ++ splitSegments (componentFileName ph n f), componentContent ph n tc) :: ws2) = (ws ++ [(cD ++ splitSegments (componentFileName ph n f), componentContent ph n tc)]) ++ ws2 by simp]
      · have hcondA : ¬ ((cD ++ splitSegments (componentFileName ph n f)).dropLast ∈ (applyWrites fsA ws).dirs ∧
            (cD ++ splitSegments (componentFileName ph n f)) ∉ (applyWrites fsA ws).dirs) := by
          rw [applyWrites_dirs]
          exact hcond
        have hcondB : ¬ ((cD ++ splitSegments (componentFileName ph n f)).dropLast ∈ (applyWrites fsB ws).dirs ∧
            (cD ++ splitSegments (componentFileName ph n f)) ∉ (applyWrites fsB ws).dirs) := by
          rw [applyWrites_dirs, ← hdirs]
          exact hcond
        have hwfA : writeFile (applyWrites fsA ws) (cD ++ splitSegments (componentFileName ph n f)) (componentContent ph n tc) = none := by
          rw [writeFile, if_neg hcondA]
        have hwfB : writeFile (applyWrites fsB ws) (cD ++ splitSegments (componentFileName ph n f)) (componentContent ph n tc) = none := by
          rw [writeFile, if_neg hcondB]
        have hstepA : writeTemplates ph n cD tD (applyWrites fsA ws) (f :: rest) =
            (applyWrites fsA ws, false) := by
          simp only [writeTemplates, hlkA, hwfA]
        have hstepB : writeTemplates ph n cD tD (applyWrites fsB ws) (f :: rest) =
            (applyWrites fsB ws, false) := by
          simp only [writeTemplates, hlkB, hwfB]
        refine ⟨[], false, ?_, ?_⟩
        · rw [List.append_nil]
          exact hstepA
        · rw [List.append_nil]
          exact hstepB

/-- C6: a successful run followed by a second run with the same component
name and configuration and unchanged template files (same listing, same
contents) succeeds with the same message and leaves every file byte-for-byte
as the first run left it: the second run overwrites each output file with
exactly the first run's name and content. -/
theorem claim6_idempotent_rerun (fs : FileSys) (n : String) (config : Config) (msg : String)
    (hcfg : fs.config = .valid config)
    (hsucc : (createComponent fs n).1 = .success msg)
    (hlist : readdirFiles (createComponent fs n).2.files (templateDirOf config) =
      readdirFiles fs.files (templateDirOf config))
    (hcont : ∀ f ∈ (readdirList (mkdirRecursive fs (componentDirOf config n)) (templateDirOf config)).getD [],
        lookupFile (createComponent fs n).2.files (templateDirOf config ++ [f]) =
          lookupFile fs.files (templateDirOf config ++ [f])) :
    (createComponent (createComponent fs n).2 n).1 = .success msg ∧
      ∀ q, lookupFile (createComponent (createComponent fs n).2 n).2.files q =
        lookupFile (createComponent fs n).2.files q := by
  cases hrd : readdirList (mkdirRecursive fs (componentDirOf config n)) (templateDirOf config) with
  | none =>
    exfalso
    have hcrash : (createComponent fs n).1 = RunResult.crash := by
      simp only [createComponent, hcfg, readConfig, createComponentWithConfig, hrd]
    rw [hcrash] at hsucc
    cases hsucc
  | some es =>
    cases hwt : writeTemplates config.COMPONENT_NAME_PLACEHOLDER n (componentDirOf config n)
        (templateDirOf config) (mkdirRecursive fs (componentDirOf config n)) es with
    | mk fs2 b =>
      cases b with
      | false =>
        exfalso
        have hcrash : (createComponent fs n).1 = RunResult.crash := by
          simp only [createComponent, hcfg, readConfig, createComponentWithConfig, hrd, hwt]
        rw [hcrash] at hsucc
        cases hsucc
      | true =>
        have hrun1 : createComponent fs n = (.success (successMessage n), fs2) := by
          simp only [createComponent, hcfg, readConfig, createComponentWithConfig, hrd, hwt]
        have hmsg : successMessage n = msg := by
          rw [hrun1] at hsucc
          exact RunResult.success.inj hsucc
        obtain ⟨ws1, hws1, _⟩ := writeTemplates_writes config.COMPONENT_NAME_PLACEHOLDER n
          (componentDirOf config n) (templateDirOf config) es
          (mkdirRecursive fs (componentDirOf config n))
        rw [hwt] at hws1
        have hfs2 : fs2 = applyWrites (mkdirRecursive fs (componentDirOf config n)) ws1 := hws1
        have hdirs2 : fs2.dirs = (mkdirRecursive fs (componentDirOf config n)).dirs := by
          rw [hfs2, applyWrites_dirs]
        have hconfig2 : fs2.config = ConfigFile.valid config := by
          rw [hfs2, applyWrites_config]
          exact hcfg
        have hchain : ∀ d ∈ dirChain (componentDirOf config n), d ∈ fs2.dirs := by
          intro d hd
          rw [hdirs2]
          exact mem_foldl_addDir_of_mem_list _ fs.dirs d hd
        have hmk2 : mkdirRecursive fs2 (componentDirOf config n) = fs2 :=
          mkdirRecursive_eq_self fs2 _ hchain
        have htmem : templateDirOf config ∈ (mkdirRecursive fs (componentDirOf config n)).dirs :=
          readdirList_mem_dirs _ _ es hrd
        have hes : readdirFiles fs.files (templateDirOf config) ++
            readdirSubdirs (mkdirRecursive fs (componentDirOf config n)).dirs (templateDirOf config) = es := by
          rw [readdirList, if_pos htmem] at hrd
          exact Option.some.inj hrd
        have hlist2 : readdirFiles fs2.files (templateDirOf config) =
            readdirFiles fs.files (templateDirOf config) := by
          have h := hlist
          rw [hrun1] at h
          exact h
        have hcont2 : ∀ f ∈ es, lookupFile fs2.files (templateDirOf config ++ [f]) =
            lookupFile fs.files (templateDirOf config ++ [f]) := by
          intro f hf
          have h := hcont f (by rw [hrd]; exact hf)
          rw [hrun1] at h
          exact h
        have hrd2 : readdirList fs2 (templateDirOf config) = some es := by
          rw [readdirList, if_pos (by rw [hdirs2]; exact htmem)]
          rw [← hes, hlist2, hdirs2]
        obtain ⟨ws2, b2, hA, hB⟩ := writeTemplates_sim config.COMPONENT_NAME_PLACEHOLDER n
          (componentDirOf config n) (templateDirOf config) es []
          (mkdirRecursive fs (componentDirOf config n)) fs2 hdirs2.symm hcont2
        have hkey : ((fs2, true) : FileSys × Bool) =
            (applyWrites (mkdirRecursive fs (componentDirOf config n)) ([] ++ ws2), b2) :=
          hwt.symm.trans hA
        have hfs2w : fs2 = applyWrites (mkdirRecursive fs (componentDirOf config n)) ws2 := by
          have h := congrArg Prod.fst hkey
          rw [List.nil_append] at h
          exact h
        have hb2 : true = b2 := congrArg Prod.snd hkey
        have hB2 : writeTemplates config.COMPONENT_NAME_PLACEHOLDER n (componentDirOf config n)
            (templateDirOf config) fs2 es = (applyWrites fs2 ws2, true) := by
          have h := hB
          rw [List.nil_append, ← hb2] at h
          exact h
        have hrun2 : createComponent fs2 n = (.success (successMessage n), applyWrites fs2 ws2) := by
          simp only [createComponent, hconfig2, readConfig, createComponentWithConfig, hmk2, hrd2, hB2]
        constructor
        · rw [hrun1]
          show (createComponent fs2 n).1 = RunResult.success msg
          rw [hrun2, ← hmsg]
        · intro q
          rw [hrun1]
          show lookupFile (createComponent fs2 n).2.files q = lookupFile fs2.files q
          rw [hrun2]
          show lookupFile (applyWrites fs2 ws2).files q = lookupFile fs2.files q
          rw [lookupFile_applyWrites]
          cases hlast : lastWrite ws2 q with
          | none => rfl
          | some c =>
            have h2 : lookupFile fs2.files q = some c := by
              rw [hfs2w, lookupFile_applyWrites, hlast]
            rw [h2]

/-- Witness filesystem for C6: the concrete documented scenario again, with
distinct constants so the two claims stay independent. -/
def rerunFs : FileSys :=
  { config := .valid (Config.mk "./src/components" "./template" "COMPONENT_NAME"),
    dirs := [[], ["template"]],
    files := [(["template", "COMPONENT_NAME.js"], "export const COMPONENT_NAME = () => \x7b\x7d;")] }

theorem claim6_witness :
    rerunFs.config = .valid (Config.mk "./src/components" "./template" "COMPONENT_NAME") ∧
      (createComponent rerunFs "Button").1 = .success (successMessage "Button") ∧
      readdirFiles (createComponent rerunFs "Button").2.files
          (templateDirOf (Config.mk "./src/components" "./template" "COMPONENT_NAME")) =
        readdirFiles rerunFs.files
          (templateDirOf (Config.mk "./src/components" "./template" "COMPONENT_NAME")) ∧
      (createComponent (createComponent rerunFs "Button").2 "Button").1 =
        .success (successMessage "Button") :=
  ⟨rfl, by decide, by decide,
    (claim6_idempotent_rerun rerunFs "Button"
      (Config.mk "./src/components" "./template" "COMPONENT_NAME") (successMessage "Button")
      rfl (by decide) (by decide) (by decide)).1⟩

/-- Witness filesystem for C7: the destination directory already exists and
holds an unrelated file. -/
def preservedFs : FileSys :=
  { config := .valid (Config.mk "c" "t" "P"),
    dirs := [[], ["t"], ["c"], ["c", "x"]],
    files := [(["t", "P.js"], "hi"), (["c", "x", "other.js"], "keep")] }

theorem claim7_witness :
    (["c", "x", "other.js"] : DirPath) ∉ outputPaths preservedFs "x" ∧
      lookupFile (createComponent preservedFs "x").2.files ["c", "x", "other.js"] =
        lookupFile preservedFs.files ["c", "x", "other.js"] :=
  ⟨by decide,
    claim7_unrelated_files_preserved preservedFs "x" ["c", "x", "other.js"] (by decide)⟩
